import Mathlib

/-!
Verification of the iMessage MCP server (`examples/imessage.py`).

The Python source is shallowly embedded: every tool is a pure function from
its inputs (plus an explicit model of the external world: the subprocess
result returned by `osascript`, and the list of people held by the external
Contacts application) to the structured payload the tool returns.  Python
dictionaries are modelled as association lists with insert-or-overwrite
semantics, Python string operations (`strip`, `split`, `startswith`,
`in`, `replace`) are modelled by executable functions on `List Char`
defined below, and raised exceptions are modelled with `Except` / error
constructors.
-/

namespace IMessage

/-! ## Python string primitives -/

/-- Model of `str.strip()` on a character list: drop whitespace from both ends. -/
def pyStripL (l : List Char) : List Char :=
  ((l.dropWhile Char.isWhitespace).reverse.dropWhile Char.isWhitespace).reverse

/-- Model of `str.strip()`. -/
def pyStrip (s : String) : String := String.mk (pyStripL s.data)

/-- Model of `str.split(sep)` for a one-character separator, Python semantics:
keeps empty fields, and splitting the empty string yields `[[]]`. -/
def splitChar (c : Char) : List Char → List (List Char)
  | [] => [[]]
  | a :: t =>
    match splitChar c t with
    | [] => [[]]
    | h :: r => if a = c then [] :: h :: r else (a :: h) :: r

/-- Model of `str.split(sep)` at `String` level. -/
def pySplit (s : String) (c : Char) : List String :=
  (splitChar c s.data).map String.mk

/-- Join with a one-character separator (inverse of `splitChar`);
models joining AppleScript list items with a delimiter. -/
def joinWith (c : Char) : List (List Char) → List Char
  | [] => []
  | [x] => x
  | x :: y :: rest => x ++ c :: joinWith c (y :: rest)

/-- Model of `str.startswith(p)`. -/
def pyStartsWith (s p : String) : Bool := p.data.isPrefixOf s.data

/-- Model of `pat in text` for strings (contiguous substring containment). -/
def hasSubstr (pat : List Char) : List Char → Bool
  | [] => pat.isEmpty
  | c :: t => pat.isPrefixOf (c :: t) || hasSubstr pat t

/-- Model of `s[1:]` on a string. -/
def strTail (s : String) : String := String.mk s.data.tail

/-- Model of `str.lower()` (ASCII case folding, which is what the data here uses). -/
def lowerL (l : List Char) : List Char := l.map Char.toLower

/-! ## Decimal numbers: `str(n)` and `int(s)` -/

/-- One decimal digit character. -/
def digitChar (d : Nat) : Char :=
  if d = 0 then '0' else if d = 1 then '1' else if d = 2 then '2'
  else if d = 3 then '3' else if d = 4 then '4' else if d = 5 then '5'
  else if d = 6 then '6' else if d = 7 then '7' else if d = 8 then '8' else '9'

/-- Model of `str(n)` for a natural number: decimal digits, most significant first. -/
def natDigits (n : Nat) : List Char :=
  if _h : n < 10 then [digitChar n]
  else natDigits (n / 10) ++ [digitChar (n % 10)]
  termination_by n
  decreasing_by exact Nat.div_lt_self (by omega) (by omega)

/-- Model of `int(s)` for a non-negative literal: accepts a non-empty all-digit
string; `none` models the `ValueError` that `int` raises otherwise. -/
def parseNat? (l : List Char) : Option Nat :=
  if !l.isEmpty && l.all Char.isDigit then
    some (l.foldl (fun a c => a * 10 + (c.toNat - 48)) 0)
  else none

/-- Model of `int(s)` including an optional leading minus sign. -/
def parseIntL (l : List Char) : Option Int :=
  match l with
  | '-' :: rest => (parseNat? rest).map (fun n => -(n : Int))
  | _ => (parseNat? l).map (fun n => (n : Int))

/-! ## Python `dict` as an association list

Insertion overwrites in place (keeping the original position) and appends
fresh keys at the end, exactly like a Python `dict`; `dictFind` is `d[k]`
lookup and `List.length` is `len(d)`. -/

def dictInsert (m : List (String × α)) (k : String) (v : α) : List (String × α) :=
  match m with
  | [] => [(k, v)]
  | p :: t => if p.1 == k then (k, v) :: t else p :: dictInsert t k v

def dictFind (m : List (String × α)) (k : String) : Option α :=
  match m with
  | [] => none
  | p :: t => if p.1 == k then some p.2 else dictFind t k

/-! ## `normalize_phone` (imessage.py lines 699-710) -/

/-- The digit content of a string: `"".join(filter(str.isdigit, phone))`. -/
def digitsOf (phone : String) : String := String.mk (phone.data.filter Char.isDigit)

/-- Model of `normalize_phone`: keep only digits; a 10-digit number gains a leading
US country code; an 11-digit number starting with 1 is left as is (the
`elif` branch in the source is a no-op); every other digit string is
returned unchanged. -/
def normalize_phone (phone : String) : String :=
  let digits := digitsOf phone
  if digits.length = 10 then "1" ++ digits
  else digits

/-! ## `run_applescript` (lines 809-834)

The outcome of `subprocess.run(["osascript", "-e", script], ...)` is an
input of the model: either the process completed with an exit code and
captured stdout/stderr, or the configured timeout expired.  A returned
`Except.error` models an exception raised to the caller; `Except.ok`
models the returned (stripped) stdout. -/

inductive SubprocessResult where
  | completed (returncode : Int) (stdout stderr : String)
  | timedOut
  deriving Repr, DecidableEq

/-- The structured permission error raised when stderr shows the macOS
automation denial (source lines 820-826). -/
def permissionDeniedMessage : String :=
  "Permission denied: Please grant Contacts access.\n" ++
  "1. Open System Settings > Privacy & Security > Automation\n" ++
  "2. Find your terminal app (Terminal/iTerm/VS Code) in the list\n" ++
  "3. Enable the checkbox next to \x27Contacts\x27\n" ++
  "4. Restart your terminal and try again"

/-- Model of `run_applescript`: classify a non-zero exit by the known
permission-denial substring; wrap any other inner exception text unless it
already carries "Permission denied"; a timeout raises its own message
carrying the configured budget. -/
def run_applescript (sub : SubprocessResult) (timeout : Nat) : Except String String :=
  match sub with
  | .completed rc stdout stderr =>
    if rc ≠ 0 then
      let e :=
        if hasSubstr "Not authorized to send Apple events".data stderr.data then
          permissionDeniedMessage
        else "AppleScript error: " ++ stderr
      if hasSubstr "Permission denied".data e.data then Except.error e
      else Except.error ("Failed to run AppleScript: " ++ e)
    else Except.ok (pyStrip stdout)
  | .timedOut =>
    Except.error ("AppleScript execution timed out after " ++
      String.mk (natDigits timeout) ++ " seconds")

/-! ## `get_contacts_count` (lines 837-855) -/

inductive CountResult where
  | ok (total_contacts : Nat) (message : String)
  | errorPayload (error : String)
  deriving Repr, DecidableEq

/-- Model of `get_contacts_count`: run the counting script with a 5 second budget;
`int(result) if result else 0`; any raised exception becomes the
structured payload with an `error` key. -/
def get_contacts_count (sub : SubprocessResult) : CountResult :=
  match run_applescript sub 5 with
  | .error e => .errorPayload e
  | .ok result =>
    match (if result == "" then some 0 else parseNat? result.data) with
    | none => .errorPayload "invalid literal for int()"
    | some count =>
      .ok count ("You have " ++ String.mk (natDigits count) ++
        " contacts in your Contacts app")

/-! ## The contact cache (lines 53-55 and 713-806) -/

/-- Model of the comprehension stripping and filtering entry lists, used by every parser
in the file for phone and email entry lists. -/
def parseStrippedList (s : String) : List String :=
  ((pySplit s ';').map pyStrip).filter (fun x => x != "")

/-- Per-line parsing shared verbatim by `get_all_contacts` and
`find_contact_by_name` (lines 1038-1055 and 1212-1230): a line is kept
when it holds a `|` and splits into at least two fields; the name is the
stripped first field and the phone and email lists come from non-empty
second and third fields. -/
def parseContactLine (line : String) : Option (String × (List String × List String)) :=
  if line.data.contains '|' then
    let parts := pySplit line '|'
    if parts.length ≥ 2 then
      some (pyStrip (parts.getD 0 ""),
        ((if parts.length > 1 && parts.getD 1 "" != "" then
            parseStrippedList (parts.getD 1 "") else []),
         (if parts.length > 2 && parts.getD 2 "" != "" then
            parseStrippedList (parts.getD 2 "") else [])))
    else none
  else none

/-- The body of the `try` block of `load_contact_cache` after the
AppleScript result string arrives: split into lines, take `name|phones`
records, build the name-to-phones dict and the normalized-phone-to-name
reverse dict (registering the bare 10-digit form alongside an 11-digit
form that starts with the US country code). -/
def cachePhoneStep (name : String) (pl : List (String × String)) (phone : String) :
    List (String × String) :=
  let normalized := normalize_phone phone
  if normalized != "" then
    if pyStartsWith normalized "1" && normalized.length == 11 then
      dictInsert (dictInsert pl normalized name) (strTail normalized) name
    else dictInsert pl normalized name
  else pl

def cacheLineStep (st : List (String × List String) × List (String × String))
    (line : String) : List (String × List String) × List (String × String) :=
  if line.data.contains '|' then
    let parts := pySplit line '|'
    if parts.length ≥ 2 then
      let name := pyStrip (parts.getD 0 "")
      let phones := parseStrippedList (parts.getD 1 "")
      (dictInsert st.1 name phones, phones.foldl (cachePhoneStep name) st.2)
    else st
  else st

def buildContactCache (result : String) :
    List (String × List String) × List (String × String) :=
  if result != "" then
    (pySplit (pyStrip result) '\n').foldl cacheLineStep ([], [])
  else ([], [])

/-- The two module-level globals `CONTACT_CACHE` and
`CONTACT_PHONE_LOOKUP`; `none` is the uninitialized `None` state. -/
structure CacheState where
  contactCache : Option (List (String × List String))
  phoneLookup : Option (List (String × String))
  deriving Repr, DecidableEq

/-- Model of `load_contact_cache`: return immediately when the cache is already
set; otherwise run the enumeration script with a 60 second budget and
either populate both maps from the result or, on any raised exception,
set both to empty.  The returned `Bool` records whether the external
call was issued. -/
def load_contact_cache (st : CacheState) (sub : SubprocessResult) :
    CacheState × Bool :=
  if st.contactCache.isSome then (st, false)
  else
    match run_applescript sub 60 with
    | .error _ => (⟨some [], some []⟩, true)
    | .ok result =>
      let (cc, pl) := buildContactCache result
      (⟨some cc, some pl⟩, true)

/-! ## The external Contacts application

A person record held by the external app, as observed by the generated
AppleScript: a name plus labelled phone and email entries.  The scripts
format each kept entry as `label: value`, joining entries with `;` and
fields with `|`. -/

structure LabeledEntry where
  label : String
  value : String
  deriving Repr, DecidableEq

structure Person where
  name : String
  phones : List LabeledEntry
  emails : List LabeledEntry
  deriving Repr, DecidableEq

/-- Entries with an empty value are skipped; the rest are rendered
`label: value` and joined with `;` (the AppleScript repeat loops). -/
def formatEntries (es : List LabeledEntry) : String :=
  String.mk (joinWith ';'
    (((es.filter (fun e => e.value != "")).map
      (fun e => e.label ++ ": " ++ e.value)).map String.data))

/-- One output line per person: `name|phones|emails`. -/
def formatContactLine (p : Person) : String :=
  p.name ++ "|" ++ formatEntries p.phones ++ "|" ++ formatEntries p.emails

/-- Free of the two structural delimiter characters of the line protocol. -/
def noStructural (l : List Char) : Bool := !l.contains '|' && !l.contains '\n'

/-- Well-formedness of an external person record with respect to the
unescaped text protocol (the spec calls the protocol brittle by
construction: names and entry values may not carry the field or line
delimiters, and surrounding whitespace is lost to the strips performed
during parsing, so it is excluded up front). -/
def personOK (p : Person) : Bool :=
  (pyStripL p.name.data == p.name.data) &&
  noStructural p.name.data &&
  noStructural (formatEntries p.phones).data &&
  noStructural (formatEntries p.emails).data &&
  (pyStripL (formatContactLine p).data == (formatContactLine p).data)

/-! ## `get_all_contacts` (lines 901-1068) -/

/-- What the enumeration AppleScript returns when the external app holds
`people`: `EMPTY|0|total` when the 1-based start index is past the end,
otherwise a `DATA|returned|total` header followed by one line per person
of the requested slice.  `endIndex - startIndex + 1` is written as the
`Nat` subtraction `endIndex - offset`, which agrees with the script
arithmetic whenever the DATA branch is taken. -/
def allContactsScript (people : List Person) (limit offset : Nat) : String :=
  let totalCount := people.length
  let startIndex := offset + 1
  if startIndex > totalCount then
    "EMPTY|0|" ++ String.mk (natDigits totalCount)
  else
    let endIndex := min (offset + limit) totalCount
    let slice := (people.drop offset).take (endIndex - offset)
    "DATA|" ++ String.mk (natDigits (endIndex - offset)) ++ "|" ++
      String.mk (natDigits totalCount) ++ "\n" ++
      String.mk (joinWith '\n' ((slice.map formatContactLine).map String.data))

structure ContactsPage where
  contacts : List (String × (List String × List String))
  pOffset : Nat
  pLimit : Nat
  total : Nat
  returned : Nat
  has_more : Bool
  deriving Repr, DecidableEq

inductive AllContactsResult where
  | ok (page : ContactsPage)
  | errorPayload (error : String)
  deriving Repr, DecidableEq

/-- The parsing half of `get_all_contacts` (lines 1007-1066), applied to
the string returned by `run_applescript`.  `returned` is `len(contacts)`,
the size of the parsed dict, not the count claimed by the header. -/
def parse_all_contacts (offset limit : Nat) (result : String) : AllContactsResult :=
  if pyStartsWith result "EMPTY" then
    let parts := pySplit result '|'
    match (if parts.length > 2 then parseNat? (parts.getD 2 "").data else some 0) with
    | none => .errorPayload "invalid literal for int()"
    | some total =>
      .ok ⟨[], offset, limit, total, 0, false⟩
  else
    let lines := pySplit (pyStrip result) '\n'
    let metadata_line := lines.headD ""
    let contact_lines := lines.tail
    let counts? : Option Nat :=
      if pyStartsWith metadata_line "DATA|" then
        let mp := pySplit metadata_line '|'
        if mp.length ≥ 3 then
          match parseNat? (mp.getD 1 "").data, parseNat? (mp.getD 2 "").data with
          | some _, some t => some t
          | _, _ => none
        else some 0
      else some 0
    match counts? with
    | none => .errorPayload "invalid literal for int()"
    | some total_count =>
      let contacts := contact_lines.foldl
        (fun d line =>
          match parseContactLine line with
          | some r => dictInsert d r.1 r.2
          | none => d)
        []
      .ok ⟨contacts, offset, limit, total_count,
        contacts.length, decide (offset + limit < total_count)⟩

/-- Model of `get_all_contacts`: run the enumeration script (default 30 second
budget), parse, and surface any raised exception as an error payload. -/
def get_all_contacts (sub : SubprocessResult) (limit offset : Nat) : AllContactsResult :=
  match run_applescript sub 30 with
  | .error e => .errorPayload e
  | .ok result => parse_all_contacts offset limit result

/-! ## `find_contact_by_name` (lines 1071-1238) -/

/-- Model of the escaping of double quotes via str.replace applied
before splicing the search text into the script. -/
def escapeQuotes (s : String) : String :=
  String.mk (s.data.foldr
    (fun c acc => if c = '"' then '\\' :: '"' :: acc else c :: acc) [])

/-- AppleScript `a contains b` under `ignoring case`. -/
def ciContains (hay pat : String) : Bool :=
  hasSubstr (lowerL pat.data) (lowerL hay.data)

/-- The fallback match condition: `personName contains searchText or
searchText contains personName`, ignoring case. -/
def fallbackMatch (searchText : String) (p : Person) : Bool :=
  ciContains p.name searchText || ciContains searchText p.name

/-- The search AppleScript, given the people of the external app and the
result `primary` of the server-side `people whose name contains
searchText` query (an input of the model: that filter runs inside the
external application).  When `primary` is empty the fallback scans the
first 100 people with case-insensitive bidirectional containment; the
match list is then truncated to `limit` and formatted one line per hit. -/
def findContactScript (people primary : List Person)
    (searchText : String) (limit : Nat) : String :=
  let matchingPeople :=
    if primary.length = 0 then
      (people.take 100).filter (fallbackMatch searchText)
    else primary
  let matchingPeople :=
    if matchingPeople.length > limit then matchingPeople.take limit
    else matchingPeople
  String.mk (joinWith '\n' ((matchingPeople.map formatContactLine).map String.data))

inductive FindResult where
  | found (matched : List (String × (List String × List String))) (count : Nat)
  | noMatches (message : String)
  | errorPayload (error : String)
  deriving Repr, DecidableEq

/-- Model of `find_contact_by_name`: reject an empty or whitespace name before any
external work; otherwise run the search script, parse one record per
line, and return the matches with their count, a no-matches payload with
an empty match list, or an error payload for a raised exception.  The
second component records whether the external call was issued. -/
def find_contact_by_name (sub : SubprocessResult) (name : String) (limit : Nat) :
    (FindResult × Bool) :=
  if name == "" || pyStrip name == "" then
    (.errorPayload "Name parameter is required", false)
  else
    match run_applescript sub 30 with
    | .error e => (.errorPayload e, true)
    | .ok result =>
      let found :=
        if result != "" then
          (pySplit (pyStrip result) '\n').foldl
            (fun ms line =>
              match parseContactLine line with
              | some r => ms ++ [r]
              | none => ms)
            []
        else []
      if found.length > 0 then (.found found found.length, true)
      else (.noMatches ("No contacts found matching \x27" ++ name ++ "\x27"), true)

/-! ## `get_messages` (lines 290-316, claim C1)

The query string is built with an f-string: the `order` argument is
spliced directly into the `ORDER BY` clause, with no validation, while
`chat_id`, `limit` and `offset` are passed to `cursor.execute` as bound
parameters. -/

def gmQueryPre : String :=
  "\n        SELECT \n            message.ROWID as id,\n            message.text,\n" ++
  "            message.attributedBody,\n            datetime(message.date/1000000000 " ++
  "+ strftime(\x27%s\x27, \x272001-01-01\x27), \x27unixepoch\x27, \x27localtime\x27) " ++
  "as date,\n            message.is_from_me,\n            handle.id as sender_id,\n" ++
  "            handle.id as sender_name\n        FROM message \n        JOIN " ++
  "chat_message_join ON chat_message_join.message_id = message.ROWID\n        JOIN " ++
  "chat ON chat.ROWID = chat_message_join.chat_id\n        LEFT JOIN handle ON " ++
  "message.handle_id = handle.ROWID\n        WHERE chat_message_join.chat_id = ?\n" ++
  "        ORDER BY message.date "

def gmQuerySuf : String := "\n        LIMIT ? OFFSET ?\n        "

/-- Model of `get_messages`: the SQL text actually executed together with the
tuple of bound parameters `(chat_id, limit, offset)`. -/
def get_messages (chat_id limit offset : Int) (order : String) : String × List Int :=
  (gmQueryPre ++ order ++ gmQuerySuf, [chat_id, limit, offset])

/-! ## Timestamp-filtered queries (lines 379-519, claim C8)

`datetime.fromisoformat(...).timestamp()` belongs to the Python standard
library, so the Unix timestamp of an ISO string is an oracle parameter
`isoTs` of the model; the arithmetic on it is carried out over `Int`
(idealizing the exact real arithmetic that the source performs on IEEE
floats before truncating with `int`). -/

/-- Model of `date.replace("Z", "+00:00")`. -/
def replaceZ (s : String) : String :=
  String.mk (s.data.foldr
    (fun c acc => if c = 'Z' then '+' :: '0' :: '0' :: ':' :: '0' :: '0' :: acc
      else c :: acc) [])

/-- The Apple-epoch conversion snippet shared verbatim by
`get_messages_before_date`, `get_messages_after_date`,
`get_messages_same_date`, `get_unique_senders_since` and
`get_distinct_senders_since`: an ISO string (detected by a `-` in the
argument) has the fixed epoch offset subtracted from its Unix timestamp
and is scaled to nanoseconds; anything else is parsed as a raw integer
(`none` models the uncaught `ValueError`). -/
def apple_epoch_of_date (isoTs : String → Int) (date : String) : Option Int :=
  if date.data.contains '-' then
    some ((isoTs (replaceZ date) - 978307200) * 1000000000)
  else parseIntL date.data

def gmbdQuerySuf : String :=
  "\n        AND message.date < ?\n        ORDER BY message.date DESC\n        LIMIT ?\n        "

def gmadQuerySuf : String :=
  "\n        AND message.date > ?\n        ORDER BY message.date ASC\n        LIMIT ?\n        "

def gmTimeQueryPre : String :=
  "\n        SELECT \n            message.ROWID as id,\n            message.text,\n" ++
  "            message.attributedBody,\n            datetime(message.date/1000000000 " ++
  "+ strftime(\x27%s\x27, \x272001-01-01\x27), \x27unixepoch\x27, \x27localtime\x27) " ++
  "as date,\n            message.is_from_me,\n            handle.id as sender_id,\n" ++
  "            handle.id as sender_name\n        FROM message \n        JOIN " ++
  "chat_message_join ON chat_message_join.message_id = message.ROWID\n        JOIN " ++
  "chat ON chat.ROWID = chat_message_join.chat_id\n        LEFT JOIN handle ON " ++
  "message.handle_id = handle.ROWID\n        WHERE chat_message_join.chat_id = ?"

/-- Model of `get_messages_before_date`: query text plus bound parameters
`(chat_id, apple_epoch, limit)`. -/
def get_messages_before_date (isoTs : String → Int) (chat_id : Int) (date : String)
    (limit : Int) : Option (String × List Int) :=
  (apple_epoch_of_date isoTs date).map
    (fun e => (gmTimeQueryPre ++ gmbdQuerySuf, [chat_id, e, limit]))

/-- Model of `get_messages_after_date`: query text plus bound parameters. -/
def get_messages_after_date (isoTs : String → Int) (chat_id : Int) (date : String)
    (limit : Int) : Option (String × List Int) :=
  (apple_epoch_of_date isoTs date).map
    (fun e => (gmTimeQueryPre ++ gmadQuerySuf, [chat_id, e, limit]))

def gussQuery : String :=
  "\n        SELECT COUNT(DISTINCT handle.id) as count\n        FROM message\n" ++
  "        LEFT JOIN handle ON message.handle_id = handle.ROWID\n" ++
  "        WHERE message.is_from_me = 0 AND message.date >= ?\n        "

/-- Model of `get_unique_senders_since`: query text plus its one bound parameter. -/
def get_unique_senders_since (isoTs : String → Int) (date : String) :
    Option (String × List Int) :=
  (apple_epoch_of_date isoTs date).map (fun e => (gussQuery, [e]))

/-- Entry-list value a parsed line yields for one field: non-empty fields
go through the strip-and-filter comprehension, an empty field gives the
empty list. -/
def parsedEntries (s : String) : List String :=
  if s != "" then parseStrippedList s else []

/-- The record `parseContactLine` produces for a well-formed formatted
person line. -/
def parsedRecordOf (p : Person) : String × (List String × List String) :=
  (p.name, (parsedEntries (formatEntries p.phones), parsedEntries (formatEntries p.emails)))

/-- Pairing invariant of the reverse phone lookup: every registered
11-digit key starting with the country code has its bare 10-digit form
registered with the same name. -/
def lookupPairInv (pl : List (String × String)) : Prop :=
  ∀ k n, dictFind pl k = some n → k.length = 11 → pyStartsWith k "1" = true →
    dictFind pl (strTail k) = some n

/-- Full invariant tying the name cache to the reverse lookup: the
pairing invariant, plus coverage - every phone listed in the cache whose
normalized form is an 11-digit country-coded string is registered. -/
def cacheInv (cc : List (String × List String)) (pl : List (String × String)) : Prop :=
  lookupPairInv pl ∧
  ∀ name phones, dictFind cc name = some phones → ∀ ph ∈ phones,
    (normalize_phone ph).length = 11 →
    pyStartsWith (normalize_phone ph) "1" = true →
    (dictFind pl (normalize_phone ph)).isSome = true

/-- The DATA-branch output of the enumeration AppleScript, abbreviated
for the proofs: header line plus one line per person of the slice. -/
def dataScriptOf (r total : Nat) (slice : List Person) : String :=
  "DATA|" ++ String.mk (natDigits r) ++ "|" ++ String.mk (natDigits total) ++ "\n" ++
  String.mk (joinWith '\n' ((slice.map formatContactLine).map String.data))

/-- Sample external contact list used for concrete instantiations. -/
def samplePeople : List Person :=
  [⟨"Alice Smith", [⟨"mobile", "(469) 826-4814"⟩], [⟨"home", "alice@example.com"⟩]⟩,
   ⟨"Bob Jones", [⟨"work", "415 555 2671"⟩], []⟩,
   ⟨"Carol", [], []⟩]

/-! # Lemmas

First a toolkit about the string primitives, then the theorems settling
the claims. -/

theorem splitChar_ne_nil (c : Char) (l : List Char) : splitChar c l ≠ [] := by
  cases l with
  | nil => simp [splitChar]
  | cons a t =>
    simp only [splitChar]
    cases h : splitChar c t with
    | nil => simp
    | cons hd r => by_cases hc : a = c <;> simp [hc]

theorem splitChar_append (c : Char) (x l : List Char) (hx : ∀ a ∈ x, a ≠ c) :
    ∃ hd tl, splitChar c l = hd :: tl ∧ splitChar c (x ++ l) = (x ++ hd) :: tl := by
  induction x with
  | nil =>
    cases h : splitChar c l with
    | nil => exact absurd h (splitChar_ne_nil c l)
    | cons hd tl => exact ⟨hd, tl, rfl, by simpa using h⟩
  | cons a t ih =>
    obtain ⟨hd, tl, h1, h2⟩ := ih (fun b hb => hx b (List.mem_cons_of_mem a hb))
    have ha : ¬ (a = c) := hx a (List.mem_cons_self a t)
    refine ⟨hd, tl, h1, ?_⟩
    simp only [List.cons_append, splitChar, List.append_eq, h2, if_neg ha]

theorem splitChar_cons_sep (c : Char) (l : List Char) :
    splitChar c (c :: l) = [] :: splitChar c l := by
  simp only [splitChar]
  cases h : splitChar c l with
  | nil => exact absurd h (splitChar_ne_nil c l)
  | cons hd r => simp

theorem joinWith_cons_cons (c : Char) (x y : List Char) (rest : List (List Char)) :
    joinWith c (x :: y :: rest) = x ++ c :: joinWith c (y :: rest) := rfl

theorem joinWith_cons_of_ne_nil (c : Char) (x : List Char) (rest : List (List Char))
    (h : rest ≠ []) : joinWith c (x :: rest) = x ++ c :: joinWith c rest := by
  cases rest with
  | nil => exact absurd rfl h
  | cons y r => rfl

theorem splitChar_joinWith (c : Char) (xss : List (List Char)) (hne : xss ≠ [])
    (h : ∀ xs ∈ xss, ∀ a ∈ xs, a ≠ c) :
    splitChar c (joinWith c xss) = xss := by
  induction xss with
  | nil => exact absurd rfl hne
  | cons x rest ih =>
    cases rest with
    | nil =>
      obtain ⟨hd, tl, h1, h2⟩ := splitChar_append c x [] (h x (by simp))
      have h1' : ([[]] : List (List Char)) = hd :: tl := h1
      cases h1'
      have hj : joinWith c [x] = x := rfl
      rw [hj]
      simpa using h2
    | cons y rest' =>
      rw [joinWith_cons_cons]
      obtain ⟨hd, tl, h1, h2⟩ :=
        splitChar_append c x (c :: joinWith c (y :: rest')) (h x (by simp))
      rw [splitChar_cons_sep] at h1
      rw [ih (by simp) (fun xs hxs => h xs (List.mem_cons_of_mem x hxs))] at h1
      have h1' : ([] : List Char) :: y :: rest' = hd :: tl := h1
      cases h1'
      rw [h2, List.append_nil]

theorem joinWith_concat_ne_nil (c : Char) (xss : List (List Char)) (x : List Char)
    (hx : x ≠ []) : joinWith c (xss ++ [x]) ≠ [] := by
  cases xss with
  | nil => simpa [joinWith]
  | cons y rest =>
    rw [List.cons_append, joinWith_cons_of_ne_nil c y _ (by simp)]
    simp

theorem getLast?_joinWith (c : Char) (xss : List (List Char)) (x : List Char)
    (hx : x ≠ []) : (joinWith c (xss ++ [x])).getLast? = x.getLast? := by
  induction xss with
  | nil => simp [joinWith]
  | cons y rest ih =>
    rw [List.cons_append, joinWith_cons_of_ne_nil c y _ (by simp)]
    have hne : joinWith c (rest ++ [x]) ≠ [] := joinWith_concat_ne_nil c rest x hx
    cases hj : joinWith c (rest ++ [x]) with
    | nil => exact absurd hj hne
    | cons j js =>
      rw [List.getLast?_append_cons, List.getLast?_cons_cons]
      rw [hj] at ih
      exact ih

theorem dropWhile_eq_self_of_head (p : Char → Bool) (l : List Char)
    (h : ∀ a, l.head? = some a → p a = false) : l.dropWhile p = l := by
  cases l with
  | nil => rfl
  | cons a t => simp [List.dropWhile, h a rfl]

theorem pyStripL_eq_self (l : List Char)
    (hh : ∀ a, l.head? = some a → a.isWhitespace = false)
    (hl : ∀ a, l.getLast? = some a → a.isWhitespace = false) : pyStripL l = l := by
  unfold pyStripL
  rw [dropWhile_eq_self_of_head _ _ hh]
  rw [dropWhile_eq_self_of_head _ _
    (fun a ha => hl a (by rwa [List.head?_reverse] at ha))]
  exact l.reverse_reverse

theorem length_dropWhile_le (p : Char → Bool) (l : List Char) :
    (l.dropWhile p).length ≤ l.length :=
  (List.dropWhile_suffix p).length_le

theorem pyStripL_head_not_ws (l : List Char) (a : Char) (h : pyStripL l = l)
    (ha : l.head? = some a) : a.isWhitespace = false := by
  by_contra hw
  simp only [Bool.not_eq_false] at hw
  cases l with
  | nil => simp at ha
  | cons b t =>
    have hb : b = a := by simpa using ha
    subst hb
    have h1 : ((b :: t).dropWhile Char.isWhitespace).length ≤ t.length := by
      simp only [List.dropWhile, hw]
      exact length_dropWhile_le _ t
    have h2 : (pyStripL (b :: t)).length ≤
        ((b :: t).dropWhile Char.isWhitespace).length := by
      unfold pyStripL
      rw [List.length_reverse]
      calc (((b :: t).dropWhile Char.isWhitespace).reverse.dropWhile
              Char.isWhitespace).length
          ≤ ((b :: t).dropWhile Char.isWhitespace).reverse.length :=
            length_dropWhile_le _ _
        _ = ((b :: t).dropWhile Char.isWhitespace).length := List.length_reverse _
    rw [h] at h2
    simp at h2
    omega

theorem pyStripL_last_not_ws (l : List Char) (a : Char) (h : pyStripL l = l)
    (ha : l.getLast? = some a) : a.isWhitespace = false := by
  by_contra hw
  simp only [Bool.not_eq_false] at hw
  have hm : l.dropWhile Char.isWhitespace = l := by
    have hsuf := List.dropWhile_suffix (l := l) Char.isWhitespace
    refine hsuf.eq_of_length ?_
    have h1 : (pyStripL l).length ≤ (l.dropWhile Char.isWhitespace).length := by
      unfold pyStripL
      rw [List.length_reverse]
      calc ((l.dropWhile Char.isWhitespace).reverse.dropWhile Char.isWhitespace).length
          ≤ (l.dropWhile Char.isWhitespace).reverse.length := length_dropWhile_le _ _
        _ = (l.dropWhile Char.isWhitespace).length := List.length_reverse _
    have h2 := length_dropWhile_le Char.isWhitespace l
    rw [h] at h1
    omega
  have hrev : l.reverse.head? = some a := by rw [List.head?_reverse]; exact ha
  cases hr : l.reverse with
  | nil => rw [hr] at hrev; simp at hrev
  | cons b t =>
    have hb : b = a := by rw [hr] at hrev; simpa using hrev
    subst hb
    have h3 : ((l.dropWhile Char.isWhitespace).reverse.dropWhile
        Char.isWhitespace).length ≤ t.length := by
      rw [hm, hr]
      simp only [List.dropWhile, hw]
      exact length_dropWhile_le _ t
    have h4 : (pyStripL l).length =
        ((l.dropWhile Char.isWhitespace).reverse.dropWhile Char.isWhitespace).length := by
      unfold pyStripL
      exact List.length_reverse _
    rw [h] at h4
    have h5 : l.length = t.length + 1 := by
      have := congrArg List.length hr
      simpa using this
    omega

theorem isPrefixOf_append (a b : List Char) : a.isPrefixOf (a ++ b) = true := by
  induction a with
  | nil => simp [List.isPrefixOf]
  | cons x t ih => simp [List.isPrefixOf, ih]

theorem hasSubstr_nil_pat (l : List Char) : hasSubstr [] l = true := by
  cases l <;> simp [hasSubstr, List.isPrefixOf]

theorem hasSubstr_here (p b : List Char) : hasSubstr p (p ++ b) = true := by
  cases p with
  | nil => exact hasSubstr_nil_pat b
  | cons c t =>
    rw [List.cons_append]
    simp only [hasSubstr]
    rw [← List.cons_append, isPrefixOf_append]
    simp

theorem hasSubstr_append (p a b : List Char) : hasSubstr p (a ++ (p ++ b)) = true := by
  induction a with
  | nil => simpa using hasSubstr_here p b
  | cons x a' ih =>
    rw [List.cons_append]
    simp only [hasSubstr]
    rw [ih]
    simp

/-! ## Decimal digit facts -/

theorem digitChar_isDigit (d : Nat) : (digitChar d).isDigit = true := by
  unfold digitChar
  split_ifs <;> decide

theorem digitChar_toNat (d : Nat) (h : d < 10) : (digitChar d).toNat - 48 = d := by
  interval_cases d <;> decide

theorem isDigit_not_ws (c : Char) (h : c.isDigit = true) : c.isWhitespace = false := by
  by_contra hw
  simp only [Bool.not_eq_false] at hw
  have h2 : ((c = ' ' ∨ c = '\t') ∨ c = '\x0d') ∨ c = '\n' := by
    simpa [Char.isWhitespace] using hw
  rcases h2 with ((h' | h') | h') | h' <;> (subst h'; simp at h)

theorem isDigit_ne_pipe (c : Char) (h : c.isDigit = true) : c ≠ '|' := by
  intro h'
  subst h'
  simp at h

theorem isDigit_ne_nl (c : Char) (h : c.isDigit = true) : c ≠ '\n' := by
  intro h'
  subst h'
  simp at h

theorem natDigits_ne_nil (n : Nat) : natDigits n ≠ [] := by
  unfold natDigits
  split <;> simp

theorem natDigits_all_digit (n : Nat) : ∀ c ∈ natDigits n, c.isDigit = true := by
  induction n using Nat.strong_induction_on with
  | _ n ih =>
    unfold natDigits
    split
    · intro c hc
      rw [List.mem_singleton] at hc
      subst hc
      exact digitChar_isDigit n
    · intro c hc
      rw [List.mem_append] at hc
      rcases hc with hc | hc
      · exact ih (n / 10) (Nat.div_lt_self (by omega) (by omega)) c hc
      · rw [List.mem_singleton] at hc
        subst hc
        exact digitChar_isDigit _

theorem natDigits_foldl (n : Nat) : ∀ init : Nat,
    (natDigits n).foldl (fun a c => a * 10 + (c.toNat - 48)) init =
      init * 10 ^ (natDigits n).length + n := by
  induction n using Nat.strong_induction_on with
  | _ n ih =>
    intro init
    unfold natDigits
    split
    case isTrue h =>
      simp [List.foldl, digitChar_toNat n h]
    case isFalse h =>
      rw [List.foldl_append, ih (n / 10) (Nat.div_lt_self (by omega) (by omega)) init]
      simp only [List.foldl, digitChar_toNat (n % 10) (Nat.mod_lt _ (by omega)),
        List.length_append, List.length_singleton]
      have hdm := Nat.div_add_mod n 10
      rw [pow_succ]
      set B := init * 10 ^ (natDigits (n / 10)).length with hB
      rw [← Nat.mul_assoc]
      omega

theorem parseNat?_natDigits (n : Nat) : parseNat? (natDigits n) = some n := by
  unfold parseNat?
  rw [if_pos]
  · rw [natDigits_foldl n 0]
    simp
  · simp only [Bool.and_eq_true, Bool.not_eq_true']
    constructor
    · simpa using natDigits_ne_nil n
    · rw [List.all_eq_true]
      exact natDigits_all_digit n

/-! ## Dict facts -/

theorem dictFind_insert_eq (m : List (String × α)) (k : String) (v : α) :
    dictFind (dictInsert m k v) k = some v := by
  induction m with
  | nil => simp [dictInsert, dictFind]
  | cons p t ih =>
    by_cases h : p.1 = k
    · simp [dictInsert, dictFind, beq_iff_eq.mpr h]
    · have hb : (p.1 == k) = false := beq_eq_false_iff_ne.mpr h
      simp only [dictInsert, hb, Bool.false_eq_true, if_false, dictFind]
      exact ih

theorem dictFind_insert_ne (m : List (String × α)) (k k' : String) (v : α)
    (h : k' ≠ k) : dictFind (dictInsert m k v) k' = dictFind m k' := by
  have hbk : (k == k') = false := beq_eq_false_iff_ne.mpr (Ne.symm h)
  induction m with
  | nil => simp [dictInsert, dictFind, hbk]
  | cons p t ih =>
    by_cases hp : p.1 = k
    · have hb : (p.1 == k) = true := beq_iff_eq.mpr hp
      have hbp : (p.1 == k') = false := by rw [hp]; exact hbk
      simp only [dictInsert, hb, if_true, dictFind, hbk, hbp]
      simp
    · have hb : (p.1 == k) = false := beq_eq_false_iff_ne.mpr hp
      simp only [dictInsert, hb, Bool.false_eq_true, if_false, dictFind]
      rw [ih]

theorem dictFind_insert_isSome (m : List (String × α)) (k k' : String) (v : α)
    (h : (dictFind m k').isSome = true) :
    (dictFind (dictInsert m k v) k').isSome = true := by
  by_cases e : k' = k
  · subst e
    rw [dictFind_insert_eq]
    rfl
  · rw [dictFind_insert_ne m k k' v e]
    exact h

theorem dictInsert_of_find_none (m : List (String × α)) (k : String) (v : α)
    (h : dictFind m k = none) : dictInsert m k v = m ++ [(k, v)] := by
  induction m with
  | nil => simp [dictInsert]
  | cons p t ih =>
    have hb : (p.1 == k) = false := by
      by_cases hp : p.1 = k
      · rw [show dictFind (p :: t) k = some p.2 by
          simp [dictFind, beq_iff_eq.mpr hp]] at h
        exact absurd h (by simp)
      · exact beq_eq_false_iff_ne.mpr hp
    simp only [dictFind, hb, Bool.false_eq_true, if_false] at h
    simp only [dictInsert, hb, Bool.false_eq_true, if_false, List.cons_append]
    rw [ih h]

theorem dictFind_append_none (m₁ m₂ : List (String × α)) (k : String)
    (h : dictFind m₁ k = none) : dictFind (m₁ ++ m₂) k = dictFind m₂ k := by
  induction m₁ with
  | nil => simp
  | cons p t ih =>
    have hb : (p.1 == k) = false := by
      by_cases hp : p.1 = k
      · rw [show dictFind (p :: t) k = some p.2 by
          simp [dictFind, beq_iff_eq.mpr hp]] at h
        exact absurd h (by simp)
      · exact beq_eq_false_iff_ne.mpr hp
    simp only [dictFind, hb, Bool.false_eq_true, if_false] at h
    simp only [List.cons_append, dictFind, hb, Bool.false_eq_true, if_false]
    exact ih h

/-! ## Claims C3 and C9: `normalize_phone` -/

theorem digitsOf_digitsOf (phone : String) : digitsOf (digitsOf phone) = digitsOf phone := by
  unfold digitsOf
  apply congrArg String.mk
  show List.filter Char.isDigit (List.filter Char.isDigit phone.data) = _
  rw [List.filter_filter]
  simp

/-- Claim C3: `normalize_phone` first strips all non-digit characters (its
result depends only on the digit content); a 10-digit result is promoted
with a leading 1; an 11-digit result starting with 1 is returned
unchanged; and on the concrete input `"(469) 826-4814"` it returns
`"14698264814"`. -/
theorem claim_c3 (phone : String) :
    normalize_phone phone = normalize_phone (digitsOf phone) ∧
    ((digitsOf phone).length = 10 → normalize_phone phone = "1" ++ digitsOf phone) ∧
    ((digitsOf phone).length = 11 → pyStartsWith (digitsOf phone) "1" = true →
      normalize_phone phone = digitsOf phone) ∧
    normalize_phone "(469) 826-4814" = "14698264814" := by
  refine ⟨?_, ?_, ?_, by decide⟩
  · show normalize_phone phone = normalize_phone (digitsOf phone)
    unfold normalize_phone
    rw [digitsOf_digitsOf]
  · intro h
    unfold normalize_phone
    simp [h]
  · intro h _
    unfold normalize_phone
    simp [h]

theorem claim_c3_witness :
    normalize_phone "(469) 826-4814" = "1" ++ digitsOf "(469) 826-4814" :=
  (claim_c3 "(469) 826-4814").2.1 (by decide)

/-- Claim C9: when the stripped digit string has any length other than 10
(and in particular is not an 11-digit string starting with 1),
`normalize_phone` returns the stripped digit string unchanged, and an
input without digits yields the empty string. -/
theorem claim_c9 (phone : String) :
    ((digitsOf phone).length ≠ 10 →
      ¬((digitsOf phone).length = 11 ∧ pyStartsWith (digitsOf phone) "1" = true) →
      normalize_phone phone = digitsOf phone) ∧
    (phone.data.all (fun c => !c.isDigit) = true → normalize_phone phone = "") := by
  constructor
  · intro h _
    unfold normalize_phone
    simp [h]
  · intro h
    have hfil : phone.data.filter Char.isDigit = [] := by
      rw [List.filter_eq_nil_iff]
      intro a ha
      have := List.all_eq_true.mp h a ha
      simpa using this
    have hd : digitsOf phone = "" := by
      unfold digitsOf
      rw [hfil]
    unfold normalize_phone
    rw [hd]
    simp

theorem claim_c9_witness :
    normalize_phone "826-4814" = digitsOf "826-4814" ∧ normalize_phone "abc" = "" :=
  ⟨(claim_c9 "826-4814").1 (by decide) (by decide), (claim_c9 "abc").2 (by decide)⟩

/-! ## Claim C10: empty name short-circuits `find_contact_by_name` -/

/-- Claim C10: a name that is empty or pure whitespace makes
`find_contact_by_name` return the structured payload with error text
"Name parameter is required" immediately, with no external call issued. -/
theorem claim_c10 (sub : SubprocessResult) (name : String) (limit : Nat)
    (h : pyStrip name = "") :
    find_contact_by_name sub name limit =
      (.errorPayload "Name parameter is required", false) := by
  unfold find_contact_by_name
  rw [if_pos]
  simp [h]

theorem claim_c10_witness :
    find_contact_by_name .timedOut "   " 10 =
      (.errorPayload "Name parameter is required", false) :=
  claim_c10 .timedOut "   " 10 (by decide)

/-! ## Claim C6: atomic, at-most-once cache loading -/

/-- Claim C6: from the uninitialized state a failing external call leaves
both cache maps empty (never partially populated); a set cache short
circuits the load without an external call; and composing two loads, the
second never re-enters the loading phase, whatever the first outcome. -/
theorem claim_c6 (st : CacheState) (sub sub' : SubprocessResult) :
    (∀ e, run_applescript sub 60 = .error e →
      load_contact_cache ⟨none, none⟩ sub = (⟨some [], some []⟩, true)) ∧
    (st.contactCache.isSome = true → load_contact_cache st sub = (st, false)) ∧
    load_contact_cache (load_contact_cache st sub).1 sub' =
      ((load_contact_cache st sub).1, false) := by
  refine ⟨?_, ?_, ?_⟩
  · intro e he
    simp [load_contact_cache, he]
  · intro h
    simp [load_contact_cache, h]
  · have hsome : ((load_contact_cache st sub).1).contactCache.isSome = true := by
      by_cases h : st.contactCache.isSome = true
      · simp [load_contact_cache, h]
      · rw [Bool.not_eq_true] at h
        cases hrun : run_applescript sub 60 with
        | error e => simp [load_contact_cache, h, hrun]
        | ok result =>
          rcases hbc : buildContactCache result with ⟨cc, pl⟩
          simp [load_contact_cache, h, hrun, hbc]
    set st' := (load_contact_cache st sub).1 with hst
    unfold load_contact_cache
    rw [if_pos hsome]

theorem claim_c6_witness :
    load_contact_cache ⟨none, none⟩ .timedOut = (⟨some [], some []⟩, true) ∧
    load_contact_cache (load_contact_cache ⟨none, none⟩ .timedOut).1 .timedOut =
      ((load_contact_cache ⟨none, none⟩ .timedOut).1, false) :=
  ⟨(claim_c6 ⟨none, none⟩ .timedOut .timedOut).1 _ rfl,
   (claim_c6 ⟨none, none⟩ .timedOut .timedOut).2.2⟩

/-! ## Claim C1: `get_messages` query construction -/

/-- Claim C1 counterexample: the sort-direction token is not restricted
to ASC or DESC - a value that is neither is still interpolated into the
executed query string rather than rejected. -/
theorem claim_c1_counterexample :
    ("ASC; DROP TABLE message" ≠ "ASC" ∧ "ASC; DROP TABLE message" ≠ "DESC") ∧
    hasSubstr ("ASC; DROP TABLE message").data
      ((get_messages 1 50 0 "ASC; DROP TABLE message").1).data = true := by
  refine ⟨⟨by decide, by decide⟩, ?_⟩
  show hasSubstr _ ((gmQueryPre ++ "ASC; DROP TABLE message" ++ gmQuerySuf)).data = true
  rw [String.data_append, String.data_append, List.append_assoc]
  exact hasSubstr_append _ _ _

/-- Claim C1 (amended): `get_messages` binds `chat_id`, `limit` and
`offset` as query parameters, while the sort-direction token is
interpolated directly into the query string for every caller-supplied
value, with no validation or rejection. -/
theorem claim_c1 (chat_id limit offset : Int) (order : String) :
    get_messages chat_id limit offset order =
      (gmQueryPre ++ order ++ gmQuerySuf, [chat_id, limit, offset]) ∧
    hasSubstr order.data ((get_messages chat_id limit offset order).1).data = true := by
  refine ⟨rfl, ?_⟩
  show hasSubstr order.data ((gmQueryPre ++ order ++ gmQuerySuf)).data = true
  rw [String.data_append, String.data_append, List.append_assoc]
  exact hasSubstr_append _ _ _

/-! ## Claim C8: timestamp argument conversion -/

/-- Claim C8: every timestamp-filtered query accepts either an ISO-8601
string (detected by a dash) or a raw Apple-epoch integer; an ISO string
is converted by subtracting the fixed epoch offset 978307200 from its
Unix timestamp and scaling by ten to the ninth, and the result is passed
as the bound timestamp parameter of `get_messages_before_date`,
`get_messages_after_date` and `get_unique_senders_since`. -/
theorem claim_c8 (isoTs : String → Int) (chat_id limit : Int) (date : String) :
    (date.data.contains '-' = true →
      apple_epoch_of_date isoTs date =
        some ((isoTs (replaceZ date) - 978307200) * 1000000000) ∧
      get_messages_before_date isoTs chat_id date limit =
        some (gmTimeQueryPre ++ gmbdQuerySuf,
          [chat_id, (isoTs (replaceZ date) - 978307200) * 1000000000, limit]) ∧
      get_messages_after_date isoTs chat_id date limit =
        some (gmTimeQueryPre ++ gmadQuerySuf,
          [chat_id, (isoTs (replaceZ date) - 978307200) * 1000000000, limit]) ∧
      get_unique_senders_since isoTs date =
        some (gussQuery, [(isoTs (replaceZ date) - 978307200) * 1000000000])) ∧
    (date.data.contains '-' = false → ∀ n, parseIntL date.data = some n →
      get_messages_before_date isoTs chat_id date limit =
        some (gmTimeQueryPre ++ gmbdQuerySuf, [chat_id, n, limit]) ∧
      get_messages_after_date isoTs chat_id date limit =
        some (gmTimeQueryPre ++ gmadQuerySuf, [chat_id, n, limit]) ∧
      get_unique_senders_since isoTs date = some (gussQuery, [n])) := by
  constructor
  · intro h
    have he : apple_epoch_of_date isoTs date =
        some ((isoTs (replaceZ date) - 978307200) * 1000000000) := by
      unfold apple_epoch_of_date
      rw [if_pos h]
    exact ⟨he, by simp [get_messages_before_date, he],
      by simp [get_messages_after_date, he],
      by simp [get_unique_senders_since, he]⟩
  · intro h n hn
    have he : apple_epoch_of_date isoTs date = some n := by
      unfold apple_epoch_of_date
      rw [if_neg (by simpa using h), hn]
    exact ⟨by simp [get_messages_before_date, he],
      by simp [get_messages_after_date, he],
      by simp [get_unique_senders_since, he]⟩

theorem claim_c8_witness :
    apple_epoch_of_date (fun _ => 1700000000) "2023-11-14T00:00:00Z" =
      some (((1700000000 : Int) - 978307200) * 1000000000) :=
  ((claim_c8 (fun _ => 1700000000) 1 50 "2023-11-14T00:00:00Z").1 (by decide)).1

/-! ## Claim C7: the bridge failure taxonomy -/

theorem hasSubstr_append_split (p a b : List Char) (h : hasSubstr p (a ++ b) = true) :
    (∃ s, s <:+ a ∧ s ≠ [] ∧ p.isPrefixOf (s ++ b) = true) ∨ hasSubstr p b = true := by
  induction a with
  | nil => right; simpa using h
  | cons x a' ih =>
    rw [List.cons_append] at h
    simp only [hasSubstr, Bool.or_eq_true] at h
    rcases h with h | h
    · left
      exact ⟨x :: a', List.suffix_rfl, by simp, by rwa [List.cons_append]⟩
    · rcases ih h with ⟨s, hs, hne, hp⟩ | h2
      · left
        exact ⟨s, hs.trans (List.suffix_cons x a'), hne, hp⟩
      · right
        exact h2

theorem isPrefixOf_cons_head (c₁ : Char) (pt : List Char) (c : Char) (l : List Char)
    (h : (c₁ :: pt).isPrefixOf (c :: l) = true) : c = c₁ := by
  simp only [List.isPrefixOf, Bool.and_eq_true, beq_iff_eq] at h
  exact h.1.symm

/-- The permission-check pattern cannot straddle into the fixed
"AppleScript error: " wrapper, so the wrapped message carries it only
when stderr itself does. -/
theorem hasSubstr_pd_wrap (stderr : String)
    (hps : hasSubstr "Permission denied".data stderr.data = false) :
    hasSubstr "Permission denied".data ("AppleScript error: " ++ stderr).data = false := by
  by_contra hc
  rw [Bool.not_eq_false, String.data_append] at hc
  rcases hasSubstr_append_split _ _ _ hc with ⟨s, hsuf, hne, hp⟩ | h2
  · cases s with
    | nil => exact hne rfl
    | cons c s' =>
      have hcP : c = 'P' := by
        rw [List.cons_append] at hp
        exact isPrefixOf_cons_head 'P' _ c _ hp
      subst hcP
      have hmem : 'P' ∈ ("AppleScript error: ".data) :=
        hsuf.sublist.subset (List.mem_cons_self _ _)
      exact absurd hmem (by decide)
  · simp [hps] at h2

theorem ne_of_data_head (s t : String) (c d : Char) (hs : s.data.head? = some c)
    (ht : t.data.head? = some d) (hcd : c ≠ d) : s ≠ t := by
  intro e
  subst e
  rw [hs] at ht
  exact hcd (Option.some.inj ht)

/-- Claim C7: a non-zero exit whose stderr carries the known
permission-denial substring raises the distinct permission error with its
remediation text; any other non-zero exit raises the generic wrapped
AppleScript error; a timeout raises its own message carrying the
configured budget; the three messages are pairwise distinct; and at the
tool boundary `get_contacts_count` surfaces whatever `run_applescript`
raised as a structured error payload, while the helper itself re-raises
(returns the error to its caller). -/
theorem claim_c7 (sub : SubprocessResult) (rc : Int) (stdout stderr : String) (t : Nat) :
    (rc ≠ 0 → hasSubstr "Not authorized to send Apple events".data stderr.data = true →
      run_applescript (.completed rc stdout stderr) t = .error permissionDeniedMessage ∧
      hasSubstr "System Settings > Privacy & Security > Automation".data
        permissionDeniedMessage.data = true) ∧
    (rc ≠ 0 → hasSubstr "Not authorized to send Apple events".data stderr.data = false →
      hasSubstr "Permission denied".data stderr.data = false →
      run_applescript (.completed rc stdout stderr) t =
        .error ("Failed to run AppleScript: " ++ ("AppleScript error: " ++ stderr))) ∧
    (run_applescript .timedOut t =
      .error ("AppleScript execution timed out after " ++
        String.mk (natDigits t) ++ " seconds") ∧
     hasSubstr (natDigits t)
       ("AppleScript execution timed out after " ++
        String.mk (natDigits t) ++ " seconds").data = true) ∧
    (permissionDeniedMessage ≠ "Failed to run AppleScript: " ++ ("AppleScript error: " ++ stderr)) ∧
    (permissionDeniedMessage ≠
      "AppleScript execution timed out after " ++ String.mk (natDigits t) ++ " seconds") ∧
    ("Failed to run AppleScript: " ++ ("AppleScript error: " ++ stderr) ≠
      "AppleScript execution timed out after " ++ String.mk (natDigits t) ++ " seconds") ∧
    (∀ e, run_applescript sub 5 = .error e → get_contacts_count sub = .errorPayload e) := by
  refine ⟨?_, ?_, ⟨rfl, ?_⟩, ?_, ?_, ?_, ?_⟩
  · intro hrc hauth
    have hpd : hasSubstr "Permission denied".data permissionDeniedMessage.data = true := by
      decide
    constructor
    · simp [run_applescript, hrc, hauth, hpd]
    · decide
  · intro hrc hauth hps
    have hwrap := hasSubstr_pd_wrap stderr hps
    simp only [run_applescript, hauth]
    simp only [Bool.false_eq_true, if_false]
    rw [if_pos hrc, if_neg (fun hc => by rw [hwrap] at hc; exact Bool.false_ne_true hc)]
  · show hasSubstr (natDigits t)
      (("AppleScript execution timed out after " ++ String.mk (natDigits t)) ++ " seconds").data = true
    rw [String.data_append, String.data_append, List.append_assoc]
    exact hasSubstr_append _ _ _
  · exact ne_of_data_head _ _ 'P' 'F' (by decide) (by rw [String.data_append]; rfl)
      (by decide)
  · exact ne_of_data_head _ _ 'P' 'A' (by decide)
      (by rw [String.data_append, String.data_append]; rfl) (by decide)
  · exact ne_of_data_head _ _ 'F' 'A' (by rw [String.data_append]; rfl)
      (by rw [String.data_append, String.data_append]; rfl) (by decide)
  · intro e he
    simp [get_contacts_count, he]

theorem claim_c7_witness :
    run_applescript
      (.completed 1 "" "execution error: Not authorized to send Apple events. (-1743)") 30 =
        .error permissionDeniedMessage ∧
    run_applescript (.completed 1 "" "some failure") 30 =
      .error ("Failed to run AppleScript: " ++ ("AppleScript error: " ++ "some failure")) ∧
    get_contacts_count .timedOut =
      .errorPayload ("AppleScript execution timed out after " ++
        String.mk (natDigits 5) ++ " seconds") :=
  ⟨((claim_c7 .timedOut 1 ""
      "execution error: Not authorized to send Apple events. (-1743)" 30).1
      (by decide) (by decide)).1,
   (claim_c7 .timedOut 1 "" "some failure" 30).2.1 (by decide) (by decide) (by decide),
   (claim_c7 .timedOut 1 "" "" 5).2.2.2.2.2.2 _ rfl⟩

/-! ## Claim C4: both phone forms resolve to the same name -/

theorem length_one_append (d : String) : ("1" ++ d).length = d.length + 1 := by
  show ("1" ++ d).data.length = d.data.length + 1
  rw [String.data_append]
  simp

theorem normalize_length_ne_ten (ph : String) : (normalize_phone ph).length ≠ 10 := by
  unfold normalize_phone
  by_cases h : (digitsOf ph).length = 10
  · rw [if_pos h, length_one_append]
    omega
  · rw [if_neg h]
    exact h

theorem strTail_length (s : String) : (strTail s).length = s.length - 1 := by
  show s.data.tail.length = s.data.length - 1
  exact List.length_tail _

theorem startsWith_one_data (s : String) (h : pyStartsWith s "1" = true) :
    s.data = '1' :: s.data.tail := by
  unfold pyStartsWith at h
  cases hd : s.data with
  | nil => rw [hd] at h; simp [List.isPrefixOf] at h
  | cons c t =>
    rw [hd] at h
    have hc : c = '1' := isPrefixOf_cons_head '1' [] c t h
    rw [hc]
    rfl

theorem strTail_inj (k m : String) (hk : pyStartsWith k "1" = true)
    (hm : pyStartsWith m "1" = true) (he : strTail k = strTail m) : k = m := by
  have hkd := startsWith_one_data k hk
  have hmd := startsWith_one_data m hm
  have htails : k.data.tail = m.data.tail := congrArg String.data he
  apply String.ext
  rw [hkd, hmd, htails]

theorem ne_strTail_of_len (k m : String) (hk : k.length = 11) (hm : m.length = 11) :
    k ≠ strTail m := by
  intro e
  have := congrArg String.length e
  rw [strTail_length, hm] at this
  omega

theorem cachePhoneStep_mono (name : String) (pl : List (String × String))
    (ph k : String) (h : (dictFind pl k).isSome = true) :
    (dictFind (cachePhoneStep name pl ph) k).isSome = true := by
  unfold cachePhoneStep
  by_cases h1 : (normalize_phone ph != "") = true
  · rw [if_pos h1]
    by_cases h2 : (pyStartsWith (normalize_phone ph) "1" &&
        (normalize_phone ph).length == 11) = true
    · rw [if_pos h2]
      exact dictFind_insert_isSome _ _ _ _ (dictFind_insert_isSome _ _ _ _ h)
    · rw [if_neg h2]
      exact dictFind_insert_isSome _ _ _ _ h
  · rw [if_neg h1]
    exact h

theorem cachePhoneStep_pairInv (name : String) (pl : List (String × String))
    (ph : String) (h : lookupPairInv pl) :
    lookupPairInv (cachePhoneStep name pl ph) := by
  have hlen10 : (normalize_phone ph).length ≠ 10 := normalize_length_ne_ten ph
  unfold cachePhoneStep
  by_cases h1 : (normalize_phone ph != "") = true
  · rw [if_pos h1]
    by_cases h2 : (pyStartsWith (normalize_phone ph) "1" &&
        (normalize_phone ph).length == 11) = true
    · rw [if_pos h2]
      obtain ⟨hstart, hlen⟩ : pyStartsWith (normalize_phone ph) "1" = true ∧
          (normalize_phone ph).length = 11 := by simpa using h2
      intro k n hfind hk11 hkstart
      by_cases hknm : k = normalize_phone ph
      · subst hknm
        have hne : normalize_phone ph ≠ strTail (normalize_phone ph) := by
          intro e
          have h3 := congrArg String.length e
          rw [strTail_length, hk11] at h3
          omega
        rw [dictFind_insert_ne _ _ _ _ hne, dictFind_insert_eq] at hfind
        rw [dictFind_insert_eq]
        exact hfind
      · have hkt_ne_nm : strTail k ≠ normalize_phone ph := by
          intro e
          have := congrArg String.length e
          rw [strTail_length, hk11, hlen] at this
          omega
        have hk_ne_t : k ≠ strTail (normalize_phone ph) :=
          ne_strTail_of_len k _ hk11 hlen
        have hkt_ne_t : strTail k ≠ strTail (normalize_phone ph) := by
          intro e
          exact hknm (strTail_inj k _ hkstart hstart e)
        rw [dictFind_insert_ne _ _ _ _ hk_ne_t, dictFind_insert_ne _ _ _ _ hknm] at hfind
        rw [dictFind_insert_ne _ _ _ _ hkt_ne_t, dictFind_insert_ne _ _ _ _ hkt_ne_nm]
        exact h k n hfind hk11 hkstart
    · rw [if_neg h2]
      intro k n hfind hk11 hkstart
      have hknm : k ≠ normalize_phone ph := by
        intro e
        subst e
        exact h2 (by simp [hkstart, hk11])
      have hkt_ne_nm : strTail k ≠ normalize_phone ph := by
        intro e
        have := congrArg String.length e
        rw [strTail_length, hk11] at this
        exact hlen10 (by omega)
      rw [dictFind_insert_ne _ _ _ _ hknm] at hfind
      rw [dictFind_insert_ne _ _ _ _ hkt_ne_nm]
      exact h k n hfind hk11 hkstart
  · rw [if_neg h1]
    exact h

theorem foldPhones_mono (name : String) (phones : List String)
    (pl : List (String × String)) (k : String)
    (h : (dictFind pl k).isSome = true) :
    (dictFind (phones.foldl (cachePhoneStep name) pl) k).isSome = true := by
  induction phones generalizing pl with
  | nil => exact h
  | cons q qs ih => exact ih _ (cachePhoneStep_mono name pl q k h)

theorem foldPhones_pairInv (name : String) (phones : List String)
    (pl : List (String × String)) (h : lookupPairInv pl) :
    lookupPairInv (phones.foldl (cachePhoneStep name) pl) := by
  induction phones generalizing pl with
  | nil => exact h
  | cons q qs ih => exact ih _ (cachePhoneStep_pairInv name pl q h)

theorem foldPhones_covers (name : String) (phones : List String)
    (pl : List (String × String)) (ph : String) (hmem : ph ∈ phones)
    (hlen : (normalize_phone ph).length = 11) :
    (dictFind (phones.foldl (cachePhoneStep name) pl)
      (normalize_phone ph)).isSome = true := by
  induction phones generalizing pl with
  | nil => cases hmem
  | cons q qs ih =>
    rw [List.foldl_cons]
    rcases List.mem_cons.mp hmem with he | hmem'
    · subst he
      apply foldPhones_mono
      have hne : (normalize_phone ph != "") = true := by
        have : normalize_phone ph ≠ "" := by
          intro e
          rw [e] at hlen
          simp at hlen
        simpa using this
      unfold cachePhoneStep
      rw [if_pos hne]
      by_cases h2 : (pyStartsWith (normalize_phone ph) "1" &&
          (normalize_phone ph).length == 11) = true
      · rw [if_pos h2]
        have hne2 : normalize_phone ph ≠ strTail (normalize_phone ph) := by
          intro e
          have := congrArg String.length e
          rw [strTail_length, hlen] at this
          omega
        rw [dictFind_insert_ne _ _ _ _ hne2, dictFind_insert_eq]
        rfl
      · rw [if_neg h2, dictFind_insert_eq]
        rfl
    · exact ih _ hmem'

theorem cacheLineStep_inv (st : List (String × List String) × List (String × String))
    (line : String) (h : cacheInv st.1 st.2) :
    cacheInv (cacheLineStep st line).1 (cacheLineStep st line).2 := by
  unfold cacheLineStep
  by_cases h1 : line.data.contains '|' = true
  · rw [if_pos h1]
    by_cases h2 : (pySplit line '|').length ≥ 2
    · rw [if_pos h2]
      refine ⟨foldPhones_pairInv _ _ _ h.1, ?_⟩
      intro name' phones' hfind' ph hmem hlen hstart
      by_cases hn : name' = pyStrip ((pySplit line '|').getD 0 "")
      · subst hn
        rw [dictFind_insert_eq] at hfind'
        have hp : phones' = parseStrippedList ((pySplit line '|').getD 1 "") :=
          Option.some.inj hfind'.symm
        subst hp
        exact foldPhones_covers _ _ _ ph hmem hlen
      · rw [dictFind_insert_ne _ _ _ _ hn] at hfind'
        exact foldPhones_mono _ _ _ _ (h.2 name' phones' hfind' ph hmem hlen hstart)
    · rw [if_neg h2]
      exact h
  · rw [if_neg h1]
    exact h

theorem foldLines_inv (lines : List String)
    (st : List (String × List String) × List (String × String))
    (h : cacheInv st.1 st.2) :
    cacheInv ((lines.foldl cacheLineStep st).1) ((lines.foldl cacheLineStep st).2) := by
  induction lines generalizing st with
  | nil => exact h
  | cons l ls ih => exact ih _ (cacheLineStep_inv st l h)

theorem cacheInv_nil : cacheInv [] [] := by
  constructor
  · intro k n hfind
    cases hfind
  · intro name phones hfind
    cases hfind

theorem buildContactCache_inv (result : String) :
    cacheInv (buildContactCache result).1 (buildContactCache result).2 := by
  unfold buildContactCache
  by_cases h : (result != "") = true
  · rw [if_pos h]
    exact foldLines_inv _ _ cacheInv_nil
  · rw [if_neg h]
    exact cacheInv_nil

/-- Claim C4: after a successful contact-cache load, every phone listed
under a cached name whose normalized form is an 11-digit string starting
with 1 has both the 11-digit form and the bare 10-digit form registered
in the reverse lookup, and the two keys resolve to the same name. -/
theorem claim_c4 (result name phone : String) (phones : List String)
    (cc : List (String × List String)) (pl : List (String × String))
    (hld : (load_contact_cache ⟨none, none⟩ (.completed 0 result "")).1 =
      ⟨some cc, some pl⟩)
    (hname : dictFind cc name = some phones) (hmem : phone ∈ phones)
    (hlen : (normalize_phone phone).length = 11)
    (hstart : pyStartsWith (normalize_phone phone) "1" = true) :
    ∃ n, dictFind pl (normalize_phone phone) = some n ∧
      dictFind pl (strTail (normalize_phone phone)) = some n := by
  have hrun : run_applescript (.completed 0 result "") 60 = .ok (pyStrip result) := by
    simp [run_applescript]
  rcases hbc : buildContactCache (pyStrip result) with ⟨cc₀, pl₀⟩
  have hld2 : (load_contact_cache ⟨none, none⟩ (.completed 0 result "")).1 =
      ⟨some cc₀, some pl₀⟩ := by
    simp [load_contact_cache, hrun, hbc]
  rw [hld2] at hld
  have h1 : cc₀ = cc := Option.some.inj (congrArg CacheState.contactCache hld)
  have h2 : pl₀ = pl := Option.some.inj (congrArg CacheState.phoneLookup hld)
  have hinv := buildContactCache_inv (pyStrip result)
  rw [hbc] at hinv
  rw [← h2]
  rw [← h1] at hname
  have hsome := hinv.2 name phones hname phone hmem hlen hstart
  obtain ⟨n, hn⟩ := Option.isSome_iff_exists.mp hsome
  exact ⟨n, hn, hinv.1 _ n hn hlen hstart⟩

/-! ## Round-trip lemmas for the line protocol -/

theorem formatContactLine_data (p : Person) :
    (formatContactLine p).data =
      joinWith '|' [p.name.data, (formatEntries p.phones).data,
        (formatEntries p.emails).data] := by
  show (p.name ++ "|" ++ formatEntries p.phones ++ "|" ++ formatEntries p.emails).data = _
  simp only [String.data_append]
  simp [joinWith, List.append_assoc]

theorem personOK_split (p : Person) (h : personOK p = true) :
    pyStripL p.name.data = p.name.data ∧
    '|' ∉ p.name.data ∧ '\n' ∉ p.name.data ∧
    '|' ∉ (formatEntries p.phones).data ∧ '\n' ∉ (formatEntries p.phones).data ∧
    '|' ∉ (formatEntries p.emails).data ∧ '\n' ∉ (formatEntries p.emails).data ∧
    pyStripL (formatContactLine p).data = (formatContactLine p).data := by
  simp only [personOK, noStructural, Bool.and_eq_true, beq_iff_eq,
    Bool.not_eq_true'] at h
  obtain ⟨⟨⟨⟨h1, h2, h3⟩, h4, h5⟩, h6, h7⟩, h8⟩ := h
  simp at h2 h3 h4 h5 h6 h7
  exact ⟨h1, h2, h3, h4, h5, h6, h7, h8⟩

theorem formatLine_ne_nil (p : Person) : (formatContactLine p).data ≠ [] := by
  rw [formatContactLine_data]
  simp [joinWith]

theorem formatLine_pipe_mem (p : Person) : '|' ∈ (formatContactLine p).data := by
  rw [formatContactLine_data]
  simp [joinWith]

theorem formatLine_no_nl (p : Person) (h : personOK p = true) :
    ∀ a ∈ (formatContactLine p).data, a ≠ '\n' := by
  obtain ⟨_, _, hnn1, _, hpn, _, hen, _⟩ := personOK_split p h
  rw [formatContactLine_data]
  intro a ha e
  subst e
  have hj : joinWith '|' [p.name.data, (formatEntries p.phones).data,
      (formatEntries p.emails).data] =
      p.name.data ++ '|' :: ((formatEntries p.phones).data ++ '|' ::
        (formatEntries p.emails).data) := rfl
  rw [hj] at ha
  rcases List.mem_append.mp ha with h1 | h1
  · exact hnn1 h1
  · rcases List.mem_cons.mp h1 with h2 | h2
    · exact absurd h2 (by decide)
    · rcases List.mem_append.mp h2 with h3 | h3
      · exact hpn h3
      · rcases List.mem_cons.mp h3 with h4 | h4
        · exact absurd h4 (by decide)
        · exact hen h4

theorem parseContactLine_format (p : Person) (h : personOK p = true) :
    parseContactLine (formatContactLine p) = some (parsedRecordOf p) := by
  obtain ⟨hstable, hnp1, _, hpp, _, hep, _, _⟩ := personOK_split p h
  have hsplit : splitChar '|' (formatContactLine p).data =
      [p.name.data, (formatEntries p.phones).data, (formatEntries p.emails).data] := by
    rw [formatContactLine_data]
    apply splitChar_joinWith
    · simp
    · intro xs hxs a ha
      simp only [List.mem_cons, List.not_mem_nil, or_false] at hxs
      rcases hxs with rfl | rfl | rfl
      · exact fun e => hnp1 (e ▸ ha)
      · exact fun e => hpp (e ▸ ha)
      · exact fun e => hep (e ▸ ha)
  have hcont : (formatContactLine p).data.contains '|' = true :=
    List.elem_eq_true_of_mem (formatLine_pipe_mem p)
  have hparts : pySplit (formatContactLine p) '|' =
      [p.name, formatEntries p.phones, formatEntries p.emails] := by
    unfold pySplit
    rw [hsplit]
    rfl
  have hname : pyStrip p.name = p.name := by
    unfold pyStrip
    rw [hstable]
  simp only [parseContactLine, hcont, if_true]
  rw [hparts]
  simp [parsedRecordOf, parsedEntries, hname]

theorem foldParse_list (ps : List Person)
    (acc : List (String × (List String × List String)))
    (hOK : ∀ p ∈ ps, personOK p = true) :
    (ps.map formatContactLine).foldl
      (fun ms line =>
        match parseContactLine line with
        | some r => ms ++ [r]
        | none => ms) acc =
      acc ++ ps.map parsedRecordOf := by
  induction ps generalizing acc with
  | nil => simp
  | cons p ps' ih =>
    rw [List.map_cons, List.foldl_cons]
    simp only [parseContactLine_format p (hOK p (by simp))]
    rw [ih _ (fun q hq => hOK q (by simp [hq]))]
    simp

theorem foldParse_dict (ps : List Person)
    (d : List (String × (List String × List String)))
    (hOK : ∀ p ∈ ps, personOK p = true)
    (hnd : (ps.map Person.name).Nodup)
    (hfresh : ∀ p ∈ ps, dictFind d p.name = none) :
    (ps.map formatContactLine).foldl
      (fun d line =>
        match parseContactLine line with
        | some r => dictInsert d r.1 r.2
        | none => d) d =
      d ++ ps.map parsedRecordOf := by
  induction ps generalizing d with
  | nil => simp
  | cons p ps' ih =>
    rw [List.map_cons, List.foldl_cons]
    have hins : dictInsert d (parsedRecordOf p).1 (parsedRecordOf p).2 =
        d ++ [parsedRecordOf p] := by
      have h0 := dictInsert_of_find_none d p.name (parsedRecordOf p).2
        (hfresh p (by simp))
      exact h0
    have hnd' : (ps'.map Person.name).Nodup := (List.nodup_cons.mp (by simpa using hnd)).2
    have hfresh' : ∀ q ∈ ps', dictFind (d ++ [parsedRecordOf p]) q.name = none := by
      intro q hq
      rw [dictFind_append_none _ _ _ (hfresh q (List.mem_cons_of_mem _ hq))]
      have hne : q.name ≠ p.name := by
        intro e
        have hpn : p.name ∈ ps'.map Person.name := e ▸ List.mem_map_of_mem Person.name hq
        exact (List.nodup_cons.mp (by simpa using hnd)).1 hpn
      simp [dictFind, parsedRecordOf, beq_eq_false_iff_ne.mpr (fun e => hne e.symm)]
    simp only [parseContactLine_format p (hOK p (by simp))]
    rw [hins, ih _ (fun q hq => hOK q (by simp [hq])) hnd' hfresh']
    simp

theorem head?_joinWith (c : Char) (x : List Char) (rest : List (List Char))
    (hx : x ≠ []) : (joinWith c (x :: rest)).head? = x.head? := by
  cases x with
  | nil => exact absurd rfl hx
  | cons a t =>
    cases rest with
    | nil => rfl
    | cons y r =>
      rw [joinWith_cons_cons]
      rfl

theorem lines_strip_stable (ps : List Person) (hOK : ∀ p ∈ ps, personOK p = true)
    (hne : ps ≠ []) :
    pyStripL (joinWith '\n' ((ps.map formatContactLine).map String.data)) =
      joinWith '\n' ((ps.map formatContactLine).map String.data) := by
  cases hps : ps with
  | nil => exact absurd hps hne
  | cons p rest =>
    subst hps
    apply pyStripL_eq_self
    · intro a ha
      rw [List.map_cons, List.map_cons,
        head?_joinWith _ _ _ (formatLine_ne_nil p)] at ha
      exact pyStripL_head_not_ws _ a
        ((personOK_split p (hOK p (by simp))).2.2.2.2.2.2.2) ha
    · intro a ha
      rcases List.eq_nil_or_concat (p :: rest) with h' | ⟨L, q, h'⟩
      · simp at h'
      · rw [List.concat_eq_append] at h'
        rw [h', List.map_append, List.map_append] at ha
        rw [show (([q] : List Person).map formatContactLine).map String.data =
            [(formatContactLine q).data] from rfl] at ha
        rw [getLast?_joinWith _ _ _ (formatLine_ne_nil q)] at ha
        have hq : q ∈ p :: rest := by
          rw [h']
          simp
        exact pyStripL_last_not_ws _ a
          ((personOK_split q (hOK q hq)).2.2.2.2.2.2.2) ha

theorem map_mk_data (ls : List String) : (ls.map String.data).map String.mk = ls := by
  induction ls with
  | nil => rfl
  | cons a t ih => rw [List.map_cons, List.map_cons, ih]

theorem pySplit_join_lines (ps : List Person) (hOK : ∀ p ∈ ps, personOK p = true)
    (hne : ps ≠ []) :
    pySplit (String.mk (joinWith '\n' ((ps.map formatContactLine).map String.data))) '\n' =
      ps.map formatContactLine := by
  unfold pySplit
  rw [show (String.mk (joinWith '\n' ((ps.map formatContactLine).map String.data))).data =
      joinWith '\n' ((ps.map formatContactLine).map String.data) from rfl]
  rw [splitChar_joinWith _ _ (by simp [hne]) ?_]
  · exact map_mk_data _
  · intro xs hxs a ha
    simp only [List.mem_map] at hxs
    obtain ⟨line, ⟨q, hq, rfl⟩, rfl⟩ := hxs
    exact formatLine_no_nl q (hOK q hq) a ha

/-! ## Claim C5: the name-search fallback -/

theorem joinWith_cons_ne_nil (c : Char) (x : List Char) (rest : List (List Char))
    (hx : x ≠ []) : joinWith c (x :: rest) ≠ [] := by
  cases rest with
  | nil => exact hx
  | cons y r =>
    rw [joinWith_cons_cons]
    simp

/-- Parsing half of `find_contact_by_name` on the formatted output for an
arbitrary well-formed list of matched people. -/
theorem find_contact_on_lines (name : String) (limit : Nat) (ps : List Person)
    (hname : pyStrip name ≠ "")
    (hOK : ∀ p ∈ ps, personOK p = true) :
    find_contact_by_name
      (.completed 0
        (String.mk (joinWith '\n' ((ps.map formatContactLine).map String.data))) "")
      name limit =
    (if (ps.map parsedRecordOf).length > 0 then
       .found (ps.map parsedRecordOf) (ps.map parsedRecordOf).length
     else .noMatches ("No contacts found matching \x27" ++ name ++ "\x27"), true) := by
  have hcond : ¬((name == "" || pyStrip name == "") = true) := by
    simp only [Bool.or_eq_true, beq_iff_eq]
    push_neg
    exact ⟨fun e => hname (by rw [e]; rfl), hname⟩
  unfold find_contact_by_name
  rw [if_neg hcond]
  by_cases hps : ps = []
  · subst hps
    have hrun : run_applescript
        (.completed 0 (String.mk (joinWith '\n'
          ((([] : List Person).map formatContactLine).map String.data))) "") 30 =
        .ok "" := by
      simp [run_applescript, pyStrip, pyStripL, joinWith]
    rw [hrun]
    simp
  · set J := joinWith '\n' ((ps.map formatContactLine).map String.data) with hJ
    have hstable : pyStripL J = J := lines_strip_stable ps hOK hps
    have hJne : J ≠ [] := by
      rw [hJ]
      cases hps2 : ps with
      | nil => exact absurd hps2 hps
      | cons p rest =>
        rw [List.map_cons, List.map_cons]
        exact joinWith_cons_ne_nil _ _ _ (formatLine_ne_nil p)
    have hpyStrip : pyStrip (String.mk J) = String.mk J := by
      unfold pyStrip
      rw [show (String.mk J).data = J from rfl, hstable]
    have hrun : run_applescript (.completed 0 (String.mk J) "") 30 =
        .ok (String.mk J) := by
      have h0 : run_applescript (.completed 0 (String.mk J) "") 30 =
          .ok (pyStrip (String.mk J)) := by
        simp [run_applescript]
      rw [h0, hpyStrip]
    rw [hrun]
    have hne' : ((String.mk J) != "") = true := by
      have : String.mk J ≠ "" := fun e => hJne (congrArg String.data e)
      simpa using this
    have hsplit : pySplit (pyStrip (String.mk J)) '\n' = ps.map formatContactLine := by
      rw [hpyStrip, hJ]
      exact pySplit_join_lines ps hOK hps
    simp only [hne', if_true, hsplit]
    rw [foldParse_list ps [] hOK]
    simp
    split_ifs <;> rfl

/-- Claim C5: with a non-empty query and positive limit, when the primary
server-side filter returns zero records the search returns exactly the
fallback scan over the first 100 candidates (case-insensitive
bidirectional containment), truncated to the requested limit; when
nothing matches the result is the structured no-matches payload with an
empty match list, not an error. -/
theorem claim_c5 (people : List Person) (name : String) (limit : Nat)
    (hname : pyStrip name ≠ "") (hlimit : 1 ≤ limit)
    (hOK : ∀ p ∈ people, personOK p = true) :
    (((people.take 100).filter
        (fallbackMatch (escapeQuotes (pyStrip name)))).take limit ≠ [] →
      find_contact_by_name
        (.completed 0
          (findContactScript people [] (escapeQuotes (pyStrip name)) limit) "")
        name limit =
      (.found ((((people.take 100).filter
            (fallbackMatch (escapeQuotes (pyStrip name)))).take limit).map
              parsedRecordOf)
        ((((people.take 100).filter
            (fallbackMatch (escapeQuotes (pyStrip name)))).take limit).map
              parsedRecordOf).length, true)) ∧
    (((people.take 100).filter
        (fallbackMatch (escapeQuotes (pyStrip name)))).take limit = [] →
      find_contact_by_name
        (.completed 0
          (findContactScript people [] (escapeQuotes (pyStrip name)) limit) "")
        name limit =
      (.noMatches ("No contacts found matching \x27" ++ name ++ "\x27"), true)) := by
  set st := escapeQuotes (pyStrip name) with hst
  set E := ((people.take 100).filter (fallbackMatch st)).take limit with hE
  have hOKE : ∀ p ∈ E, personOK p = true := by
    intro p hp
    exact hOK p (List.mem_of_mem_take (List.mem_of_mem_filter
      (List.mem_of_mem_take (hE ▸ hp))))
  have hscript : findContactScript people [] st limit =
      String.mk (joinWith '\n' ((E.map formatContactLine).map String.data)) := by
    simp only [findContactScript]
    rw [if_pos (show ([] : List Person).length = 0 from rfl)]
    by_cases hgt : ((people.take 100).filter (fallbackMatch st)).length > limit
    · rw [if_pos hgt]
    · have hTake : List.take limit ((people.take 100).filter (fallbackMatch st)) =
          (people.take 100).filter (fallbackMatch st) :=
        List.take_of_length_le (by omega)
      rw [if_neg hgt, hE, hTake]
  have hmain := find_contact_on_lines name limit E hname hOKE
  constructor
  · intro hne
    rw [hscript, hmain,
      if_pos (by rw [List.length_map]; exact List.length_pos.mpr hne)]
  · intro heq
    rw [hscript, hmain, heq]
    simp

theorem claim_c5_witness :
    find_contact_by_name
      (.completed 0
        (findContactScript samplePeople [] (escapeQuotes (pyStrip "alice")) 10) "")
      "alice" 10 =
    (.found (((( samplePeople.take 100).filter
          (fallbackMatch (escapeQuotes (pyStrip "alice")))).take 10).map
            parsedRecordOf)
      ((((samplePeople.take 100).filter
          (fallbackMatch (escapeQuotes (pyStrip "alice")))).take 10).map
            parsedRecordOf).length, true) :=
  (claim_c5 samplePeople "alice" 10 (by decide) (by decide) (by decide)).1 (by decide)

theorem claim_c4_witness :
    ∃ n, dictFind [("14698264814", "Alice"), ("4698264814", "Alice")]
        (normalize_phone "(469) 826-4814") = some n ∧
      dictFind [("14698264814", "Alice"), ("4698264814", "Alice")]
        (strTail (normalize_phone "(469) 826-4814")) = some n :=
  claim_c4 "Alice|(469) 826-4814" "Alice" "(469) 826-4814" ["(469) 826-4814"]
    [("Alice", ["(469) 826-4814"])] [("14698264814", "Alice"), ("4698264814", "Alice")]
    (by decide) (by decide) (by decide) (by decide) (by decide)

/-! ## Claim C2: pagination of `get_all_contacts` -/

theorem pyStrip_eq_of_data (s : String) (h : pyStripL s.data = s.data) :
    pyStrip s = s := by
  unfold pyStrip
  rw [h]

theorem empty_script_stable (total : Nat) :
    pyStripL ("EMPTY|0|" ++ String.mk (natDigits total)).data =
      ("EMPTY|0|" ++ String.mk (natDigits total)).data := by
  apply pyStripL_eq_self
  · intro a ha
    rw [show (("EMPTY|0|" ++ String.mk (natDigits total)).data).head? = some 'E'
      from rfl] at ha
    have he : a = 'E' := (Option.some.inj ha).symm
    subst he
    decide
  · intro a ha
    rw [String.data_append,
      List.getLast?_append_of_ne_nil _ (natDigits_ne_nil total)] at ha
    have hmem : a ∈ natDigits total := List.mem_of_mem_getLast? (by rw [ha]; rfl)
    exact isDigit_not_ws a (natDigits_all_digit total a hmem)

theorem parse_empty_branch (offset limit total : Nat) :
    parse_all_contacts offset limit ("EMPTY|0|" ++ String.mk (natDigits total)) =
      .ok ⟨[], offset, limit, total, 0, false⟩ := by
  have hstart : pyStartsWith ("EMPTY|0|" ++ String.mk (natDigits total)) "EMPTY" = true := by
    unfold pyStartsWith
    rw [show (("EMPTY|0|" ++ String.mk (natDigits total)) : String).data =
        "EMPTY".data ++ ('|' :: '0' :: '|' :: natDigits total) from rfl]
    exact isPrefixOf_append _ _
  have hside : ∀ xs ∈ [("EMPTY" : String).data, ['0'], natDigits total],
      ∀ a ∈ xs, a ≠ '|' := by
    intro xs hxs a ha
    simp only [List.mem_cons, List.not_mem_nil, or_false] at hxs
    rcases hxs with rfl | rfl | rfl
    · exact fun e => absurd (e ▸ ha) (by decide)
    · exact fun e => absurd (e ▸ ha) (by decide)
    · exact fun e => isDigit_ne_pipe a (natDigits_all_digit total a ha) e
  have hparts : pySplit ("EMPTY|0|" ++ String.mk (natDigits total)) '|' =
      ["EMPTY", "0", String.mk (natDigits total)] := by
    unfold pySplit
    rw [show (("EMPTY|0|" ++ String.mk (natDigits total)) : String).data =
        joinWith '|' [("EMPTY" : String).data, ['0'], natDigits total] from rfl]
    rw [splitChar_joinWith _ _ (by simp) hside]
    rfl
  simp only [parse_all_contacts]
  rw [if_pos hstart, hparts]
  simp [parseNat?_natDigits]

theorem header_data_eq (r total : Nat) :
    (("DATA|" ++ String.mk (natDigits r) ++ "|" ++
      String.mk (natDigits total)) : String).data =
      ("DATA|" : String).data ++ (natDigits r ++ ('|' :: natDigits total)) := by
  simp [String.data_append, List.append_assoc]

theorem header_no_nl (r total : Nat) :
    ∀ a ∈ (("DATA|" ++ String.mk (natDigits r) ++ "|" ++
      String.mk (natDigits total)) : String).data, a ≠ '\n' := by
  intro a ha e
  subst e
  rw [header_data_eq] at ha
  rcases List.mem_append.mp ha with h1 | h1
  · exact absurd h1 (by decide)
  · rcases List.mem_append.mp h1 with h2 | h2
    · exact isDigit_ne_nl _ (natDigits_all_digit r _ h2) rfl
    · rcases List.mem_cons.mp h2 with h3 | h3
      · exact absurd h3 (by decide)
      · exact isDigit_ne_nl _ (natDigits_all_digit total _ h3) rfl

theorem header_startsWith (r total : Nat) :
    pyStartsWith ("DATA|" ++ String.mk (natDigits r) ++ "|" ++
      String.mk (natDigits total)) "DATA|" = true := by
  unfold pyStartsWith
  rw [header_data_eq]
  exact isPrefixOf_append _ _

theorem header_split (r total : Nat) :
    pySplit ("DATA|" ++ String.mk (natDigits r) ++ "|" ++
      String.mk (natDigits total)) '|' =
      ["DATA", String.mk (natDigits r), String.mk (natDigits total)] := by
  have hside : ∀ xs ∈ [("DATA" : String).data, natDigits r, natDigits total],
      ∀ a ∈ xs, a ≠ '|' := by
    intro xs hxs a ha
    simp only [List.mem_cons, List.not_mem_nil, or_false] at hxs
    rcases hxs with rfl | rfl | rfl
    · exact fun e => absurd (e ▸ ha) (by decide)
    · exact fun e => isDigit_ne_pipe a (natDigits_all_digit r a ha) e
    · exact fun e => isDigit_ne_pipe a (natDigits_all_digit total a ha) e
  unfold pySplit
  rw [show (("DATA|" ++ String.mk (natDigits r) ++ "|" ++
      String.mk (natDigits total)) : String).data =
      joinWith '|' [("DATA" : String).data, natDigits r, natDigits total] from by
    rw [header_data_eq]
    rfl]
  rw [splitChar_joinWith _ _ (by simp) hside]
  rfl

theorem data_script_data (r total : Nat) (slice : List Person) (hne : slice ≠ []) :
    (dataScriptOf r total slice).data =
      joinWith '\n'
        ((("DATA|" ++ String.mk (natDigits r) ++ "|" ++
          String.mk (natDigits total)) : String).data ::
          (slice.map formatContactLine).map String.data) := by
  have hrest : (slice.map formatContactLine).map String.data ≠ [] := by simp [hne]
  rw [joinWith_cons_of_ne_nil _ _ _ hrest]
  unfold dataScriptOf
  simp [String.data_append, List.append_assoc]

theorem data_script_stable (r total : Nat) (slice : List Person)
    (hOK : ∀ p ∈ slice, personOK p = true) (hne : slice ≠ []) :
    pyStripL (dataScriptOf r total slice).data = (dataScriptOf r total slice).data := by
  apply pyStripL_eq_self
  · intro a ha
    rw [show ((dataScriptOf r total slice).data).head? = some 'D' from rfl] at ha
    have he : a = 'D' := (Option.some.inj ha).symm
    subst he
    decide
  · intro a ha
    rw [data_script_data r total slice hne] at ha
    rcases List.eq_nil_or_concat slice with h' | ⟨L, q, h'⟩
    · exact absurd h' hne
    · rw [List.concat_eq_append] at h'
      rw [h', List.map_append, List.map_append,
        show (([q] : List Person).map formatContactLine).map String.data =
          [(formatContactLine q).data] from rfl, ← List.cons_append] at ha
      rw [getLast?_joinWith _ _ _ (formatLine_ne_nil q)] at ha
      have hq : q ∈ slice := by
        rw [h']
        simp
      exact pyStripL_last_not_ws _ a
        ((personOK_split q (hOK q hq)).2.2.2.2.2.2.2) ha

theorem parse_data_branch (offset limit r total : Nat) (slice : List Person)
    (hOK : ∀ p ∈ slice, personOK p = true)
    (hnd : (slice.map Person.name).Nodup)
    (hne : slice ≠ []) :
    parse_all_contacts offset limit (dataScriptOf r total slice) =
      .ok ⟨slice.map parsedRecordOf, offset, limit, total,
        (slice.map parsedRecordOf).length, decide (offset + limit < total)⟩ := by
  have hnotE : ¬(pyStartsWith (dataScriptOf r total slice) "EMPTY" = true) := by
    rw [show pyStartsWith (dataScriptOf r total slice) "EMPTY" = false from rfl]
    simp
  have hstrip : pyStrip (dataScriptOf r total slice) = dataScriptOf r total slice :=
    pyStrip_eq_of_data _ (data_script_stable r total slice hOK hne)
  have hlines : pySplit (dataScriptOf r total slice) '\n' =
      ("DATA|" ++ String.mk (natDigits r) ++ "|" ++ String.mk (natDigits total)) ::
        slice.map formatContactLine := by
    unfold pySplit
    rw [data_script_data r total slice hne]
    rw [splitChar_joinWith _ _ (by simp) ?side]
    case side =>
      intro xs hxs a ha
      rcases List.mem_cons.mp hxs with rfl | h2
      · exact header_no_nl r total a ha
      · simp only [List.mem_map] at h2
        obtain ⟨line, ⟨q, hq, rfl⟩, rfl⟩ := h2
        exact formatLine_no_nl q (hOK q hq) a ha
    rw [List.map_cons, map_mk_data]
  simp only [parse_all_contacts]
  rw [if_neg hnotE, hstrip, hlines]
  simp only [List.headD_cons, List.tail_cons]
  rw [if_pos (header_startsWith r total), header_split]
  rw [if_pos (by simp)]
  simp only [List.getD_cons_succ, List.getD_cons_zero]
  rw [show parseNat? (String.mk (natDigits r)).data = some r from parseNat?_natDigits r,
    show parseNat? (String.mk (natDigits total)).data = some total from
      parseNat?_natDigits total]
  rw [foldParse_dict slice [] hOK hnd (fun p _ => rfl)]
  simp

/-- Claim C2: pagination arithmetic of `get_all_contacts` over an
external contact list of size total, for non-negative offset and positive
limit: `returned` is `total - offset` when `offset + limit` reaches the
end and `limit` otherwise; `has_more` holds exactly when
`offset + limit < total`; and an offset at or beyond `total` yields an
empty result with `returned = 0` and `has_more = false`. -/
theorem claim_c2 (people : List Person) (limit offset : Nat)
    (hlimit : 1 ≤ limit)
    (hOK : ∀ p ∈ people, personOK p = true)
    (hnd : (people.map Person.name).Nodup) :
    ∃ page, get_all_contacts
        (.completed 0 (allContactsScript people limit offset) "") limit offset =
      .ok page ∧
      page.total = people.length ∧
      (people.length ≤ offset + limit → page.returned = people.length - offset) ∧
      (offset + limit < people.length → page.returned = limit) ∧
      page.has_more = decide (offset + limit < people.length) ∧
      (people.length ≤ offset → page.contacts = [] ∧ page.returned = 0 ∧
        page.has_more = false) := by
  by_cases hemp : offset + 1 > people.length
  · have hscript : allContactsScript people limit offset =
        "EMPTY|0|" ++ String.mk (natDigits people.length) := by
      unfold allContactsScript
      rw [if_pos hemp]
    have hok : run_applescript
        (.completed 0 (allContactsScript people limit offset) "") 30 =
        .ok (allContactsScript people limit offset) := by
      have h0 : run_applescript
          (.completed 0 (allContactsScript people limit offset) "") 30 =
          .ok (pyStrip (allContactsScript people limit offset)) := by
        simp [run_applescript]
      rw [h0, hscript, pyStrip_eq_of_data _ (empty_script_stable people.length)]
    refine ⟨⟨[], offset, limit, people.length, 0, false⟩, ?_, rfl, ?_, ?_, ?_, ?_⟩
    · unfold get_all_contacts
      rw [hok]
      show parse_all_contacts offset limit (allContactsScript people limit offset) = _
      rw [hscript]
      exact parse_empty_branch offset limit people.length
    · intro _
      show 0 = people.length - offset
      omega
    · intro h
      exact absurd h (by omega)
    · show false = decide (offset + limit < people.length)
      rw [decide_eq_false (by omega)]
    · intro _
      exact ⟨rfl, rfl, rfl⟩
  · set endI := min (offset + limit) people.length with hEnd
    set r := endI - offset with hrdef
    set slice := (people.drop offset).take r with hslicedef
    have hslicelen : slice.length = r := by
      rw [hslicedef, List.length_take, List.length_drop]
      omega
    have hsliceSub : List.Sublist slice people := by
      rw [hslicedef]
      exact ((people.drop offset).take_sublist r).trans (people.drop_sublist offset)
    have hOKs : ∀ p ∈ slice, personOK p = true := fun p hp => hOK p (hsliceSub.subset hp)
    have hnds : (slice.map Person.name).Nodup := hnd.sublist (hsliceSub.map Person.name)
    have hne : slice ≠ [] := by
      intro e
      rw [e] at hslicelen
      simp at hslicelen
      omega
    have hscript : allContactsScript people limit offset =
        dataScriptOf r people.length slice := by
      unfold allContactsScript dataScriptOf
      rw [if_neg hemp]
    have hok : run_applescript
        (.completed 0 (allContactsScript people limit offset) "") 30 =
        .ok (allContactsScript people limit offset) := by
      have h0 : run_applescript
          (.completed 0 (allContactsScript people limit offset) "") 30 =
          .ok (pyStrip (allContactsScript people limit offset)) := by
        simp [run_applescript]
      rw [h0, hscript,
        pyStrip_eq_of_data _ (data_script_stable r people.length slice hOKs hne)]
    refine ⟨⟨slice.map parsedRecordOf, offset, limit, people.length,
      (slice.map parsedRecordOf).length, decide (offset + limit < people.length)⟩,
      ?_, rfl, ?_, ?_, rfl, ?_⟩
    · unfold get_all_contacts
      rw [hok]
      show parse_all_contacts offset limit (allContactsScript people limit offset) = _
      rw [hscript]
      exact parse_data_branch offset limit r people.length slice hOKs hnds hne
    · intro h
      show (slice.map parsedRecordOf).length = people.length - offset
      rw [List.length_map, hslicelen]
      omega
    · intro h
      show (slice.map parsedRecordOf).length = limit
      rw [List.length_map, hslicelen]
      omega
    · intro h
      exact absurd h (by omega)

theorem claim_c2_witness :
    ∃ page, get_all_contacts
        (.completed 0 (allContactsScript samplePeople 2 1) "") 2 1 =
      .ok page ∧
      page.total = samplePeople.length ∧
      (samplePeople.length ≤ 1 + 2 → page.returned = samplePeople.length - 1) ∧
      (1 + 2 < samplePeople.length → page.returned = 2) ∧
      page.has_more = decide (1 + 2 < samplePeople.length) ∧
      (samplePeople.length ≤ 1 → page.contacts = [] ∧ page.returned = 0 ∧
        page.has_more = false) :=
  claim_c2 samplePeople 2 1 (by decide) (by decide) (by decide)

end IMessage

